import Mathlib

/-!
Shallow embedding of the wb-hook request-capture service ("webhook sink").

The repository ships three server variants sharing one core:
  * `src/app-json.js` — flat-file backend: each bin is one JSON document
    `{ name, requests }` stored under `DATA_DIR/<guid>.json`;
  * `src/app.js` — SQLite backend: each bin is one database file with a
    `metadata (name)` table and a `requests` table whose `logNumber` column is
    an `INTEGER PRIMARY KEY AUTOINCREMENT`;
  * `src/unnamed/part_000` (second half) — a legacy flat-file variant whose
    document is a bare array of entries.

Filesystem state (the set of per-bin files in the data directory) is embedded
as an association list from the bin's guid to its document.  Each HTTP
handler becomes a pure function from state (plus request parameters) to a new
state together with the HTTP status and response payload it produces.
-/

/-- The data an inbound capture request contributes to a log entry, as built
by the `app.all` capture route: `url` is `req.originalUrl` (full path plus
query string), `method`, `headers` and `body` are copied verbatim, and
`timestamp` is the capture time (`new Date().toISOString()`). -/
structure RequestData where
  url : String
  method : String
  headers : List (String × String)
  body : String
  timestamp : String
deriving DecidableEq, Repr

/-- One stored capture: the request data plus the `logNumber` the store
assigned at insert time. -/
structure LogEntry where
  url : String
  method : String
  headers : List (String × String)
  body : String
  timestamp : String
  logNumber : Nat
deriving DecidableEq, Repr

/-- Attach a store-assigned `logNumber` to request data, yielding the stored
entry (`requestData.logNumber = n` in the source). -/
def RequestData.toEntry (rd : RequestData) (n : Nat) : LogEntry :=
  { url := rd.url, method := rd.method, headers := rd.headers,
    body := rd.body, timestamp := rd.timestamp, logNumber := n }

/-- Look a bin up by guid in an association-list state (the data directory:
one file per bin, keyed by guid). -/
def findBin {α : Type} : List (String × α) → String → Option α
  | [], _ => none
  | (k, v) :: rest, g => if k = g then some v else findBin rest g

/-- Replace the document stored for guid `g` (rewriting that bin's file);
bins with other guids are untouched. -/
def setBin {α : Type} : List (String × α) → String → α → List (String × α)
  | [], _, _ => []
  | (k, v) :: rest, g, b => if k = g then (k, b) :: rest else (k, v) :: setBin rest g b

/-- Remove the file for guid `g` (the `fs.unlink` of the delete-url route). -/
def removeBin {α : Type} (s : List (String × α)) (g : String) : List (String × α) :=
  s.filter (fun p => ¬ p.1 = g)

/-! ## Flat-file backend (`src/app-json.js`) -/

/-- One bin document of the flat-file backend: `{ name, requests }`.
`name = none` embeds the JavaScript value `false` that `POST /create-url`
writes; `some s` embeds a string name set by rename. -/
structure BinFile where
  name : Option String
  requests : List LogEntry
deriving DecidableEq, Repr

/-- The flat-file data directory: guid-keyed bin documents. -/
def JStore : Type := List (String × BinFile)

instance : DecidableEq JStore := by
  unfold JStore
  infer_instance

/-- `POST /create-url` of `app-json.js`: generates a guid, sets
`const name = false` (any name supplied in the body is ignored), and writes
`{ name, requests: [] }`.  Returns the new state and the `name` echoed in the
response. -/
def jsonCreateUrl (s : JStore) (guid : String) (_suppliedName : Option String) :
    JStore × Option String :=
  let name : Option String := none
  ((guid, { name := name, requests := [] }) :: s, name)

/-- `logRequest` of `app-json.js`: reading a missing file throws `ENOENT`,
surfaced as status 404 with nothing written; otherwise the entry is appended
with `logNumber = data.requests.length + 1`, the file is rewritten, the entry
is pushed to SSE listeners, and status 200 is returned.  The result is the
new state, the HTTP status, and the entry published to subscribers (if any). -/
def jsonLogRequest (s : JStore) (g : String) (rd : RequestData) :
    JStore × Nat × Option LogEntry :=
  match findBin s g with
  | none => (s, 404, none)
  | some data =>
    let entry := rd.toEntry (data.requests.length + 1)
    (setBin s g { data with requests := data.requests ++ [entry] }, 200, some entry)

/-- `GET /logs/:guid` of `app-json.js`: returns the whole stored document
(name and requests in stored order) with status 200, or 404 when the file is
absent. -/
def jsonFetchLog (s : JStore) (g : String) : Nat × Option BinFile :=
  match findBin s g with
  | none => (404, none)
  | some data => (200, some data)

/-- `DELETE /logs/:guid/:logNumber` of `app-json.js`: the path parameter is
run through `parseInt` (`none` embeds `NaN` from a non-numeric segment); the
document's requests are filtered by `log.logNumber !== parseInt(logNumber)`
and the file rewritten, status 200.  A read failure (missing bin) lands in
the catch block with status 500. -/
def jsonDeleteOne (s : JStore) (g : String) (k : Option Nat) : JStore × Nat :=
  match findBin s g with
  | none => (s, 500)
  | some data =>
    (setBin s g
      { data with requests := data.requests.filter (fun e => ¬ some e.logNumber = k) },
     200)

/-- `DELETE /logs/:guid` of `app-json.js`: with no `logs` body the requests
array is emptied; with a list, entries whose `logNumber` is in the list are
removed.  Missing bin lands in the catch block: status 500. -/
def jsonDeleteMany (s : JStore) (g : String) (logs : Option (List Nat)) : JStore × Nat :=
  match findBin s g with
  | none => (s, 500)
  | some data =>
    match logs with
    | none => (setBin s g { data with requests := [] }, 200)
    | some ks =>
      (setBin s g
        { data with requests := data.requests.filter (fun e => ¬ e.logNumber ∈ ks) },
       200)

/-- `DELETE /delete-url/:guid` of `app-json.js`: unlink the file (404 when
absent), status 200 on success. -/
def jsonDeleteUrl (s : JStore) (g : String) : JStore × Nat :=
  match findBin s g with
  | none => (s, 404)
  | some _ => (removeBin s g, 200)

/-- `POST /rename-url/:guid` of `app-json.js`: read the document, set
`data.name = name`, rewrite, status 200.  Reading a missing file throws, and
the catch block answers status 500 (not 404). -/
def jsonRenameUrl (s : JStore) (g : String) (name : String) : JStore × Nat :=
  match findBin s g with
  | none => (s, 500)
  | some data => (setBin s g { data with name := some name }, 200)

/-! ## SQLite backend (`src/app.js`) -/

/-- One bin database of the SQLite backend: the `metadata` name, the
`AUTOINCREMENT` sequence for the `requests.logNumber` key (`sqlite_sequence`:
the highest log number ever assigned in this bin, 0 when none yet), and the
stored rows in insertion order. -/
structure Db where
  name : String
  seq : Nat
  rows : List LogEntry
deriving DecidableEq, Repr

/-- The SQLite data directory: guid-keyed per-bin databases. -/
def DbStore : Type := List (String × Db)

instance : DecidableEq DbStore := by
  unfold DbStore
  infer_instance

/-- `POST /create-url` of `app.js`: generates a guid, takes
`{ name = 'Untitled' } = req.body`, creates the database with empty tables
and inserts the name into `metadata`.  Returns the new state and the name
echoed in the response. -/
def sqliteCreateUrl (s : DbStore) (guid : String) (suppliedName : Option String) :
    DbStore × String :=
  let name := suppliedName.getD "Untitled"
  ((guid, { name := name, seq := 0, rows := [] }) :: s, name)

/-- `logRequest` of `app.js`: `fs.access` on a missing database file fails,
surfaced as status 404 with nothing written.  Otherwise the row is inserted;
the `AUTOINCREMENT` key assigns `logNumber = seq + 1` (one above the highest
ever used, never reusing numbers of deleted rows), the entry is pushed to
SSE clients, and status 200 is returned. -/
def sqliteLogRequest (s : DbStore) (g : String) (rd : RequestData) :
    DbStore × Nat × Option LogEntry :=
  match findBin s g with
  | none => (s, 404, none)
  | some db =>
    let entry := rd.toEntry (db.seq + 1)
    (setBin s g { db with seq := db.seq + 1, rows := db.rows ++ [entry] }, 200, some entry)

/-- The ordering `ORDER BY logNumber DESC` sorts by: `a` comes no later than
`b` when `a`'s log number is at least `b`'s. -/
def descByLogNumber (a b : LogEntry) : Prop := b.logNumber ≤ a.logNumber

instance : DecidableRel descByLogNumber := fun a b => Nat.decLe b.logNumber a.logNumber

instance : IsTotal LogEntry descByLogNumber :=
  ⟨fun a b => Nat.le_total b.logNumber a.logNumber⟩

instance : IsTrans LogEntry descByLogNumber :=
  ⟨fun _ _ _ hab hbc => Nat.le_trans hbc hab⟩

/-- `SELECT * FROM requests ORDER BY logNumber DESC`: the stored rows sorted
by descending `logNumber`. -/
def sortByLogNumberDesc (l : List LogEntry) : List LogEntry :=
  l.insertionSort descByLogNumber

/-- `GET /logs/:guid` of `app.js`: 404 when the database file is absent;
otherwise status 200 with the metadata name and the rows ordered by
descending `logNumber`. -/
def sqliteFetchLog (s : DbStore) (g : String) : Nat × Option (String × List LogEntry) :=
  match findBin s g with
  | none => (404, none)
  | some db => (200, some (db.name, sortByLogNumberDesc db.rows))

/-- `DELETE /logs/:guid/:logNumber` of `app.js`: 404 when the database file
is absent; otherwise `DELETE FROM requests WHERE logNumber = ?` with the path
parameter (`none` embeds a non-numeric segment, which matches no integer
row), status 200. -/
def sqliteDeleteOne (s : DbStore) (g : String) (k : Option Nat) : DbStore × Nat :=
  match findBin s g with
  | none => (s, 404)
  | some db =>
    (setBin s g { db with rows := db.rows.filter (fun e => ¬ some e.logNumber = k) }, 200)

/-- `DELETE /delete-url/:guid` of `app.js`: 404 when the database file is
absent; otherwise the file is unlinked, status 200.  (The SSE registry side
of this route is embedded in `World.deleteUrlStep` below.) -/
def sqliteDeleteUrl (s : DbStore) (g : String) : DbStore × Nat :=
  match findBin s g with
  | none => (s, 404)
  | some _ => (removeBin s g, 200)

/-- `POST /rename-url/:guid` of `app.js`: 404 when the database file is
absent; otherwise `UPDATE metadata SET name = ?`, status 200. -/
def sqliteRenameUrl (s : DbStore) (g : String) (name : String) : DbStore × Nat :=
  match findBin s g with
  | none => (s, 404)
  | some db => (setBin s g { db with name := name }, 200)

/-- One row of `GET /get-urls` of `app.js`: guid, metadata name, and the
`COUNT(*)`, `MIN(timestamp)`, `MAX(timestamp)` aggregates over the bin's
rows. -/
structure BinSummary where
  guid : String
  name : String
  requestCount : Nat
  firstRequestTime : Option String
  lastRequestTime : Option String
deriving DecidableEq, Repr

/-- `GET /get-urls` of `app.js`: one summary row per database file in the
data directory. -/
def listBins (s : DbStore) : List BinSummary :=
  s.map (fun p =>
    { guid := p.1
      name := p.2.name
      requestCount := p.2.rows.length
      firstRequestTime := (p.2.rows.map (fun e => e.timestamp)).min?
      lastRequestTime := (p.2.rows.map (fun e => e.timestamp)).max? })

/-! ## Legacy flat-file variant (`src/unnamed/part_000`, second half) -/

/-- The legacy data directory: each bin file is a bare array of entries. -/
def LStore : Type := List (String × List LogEntry)

instance : DecidableEq LStore := by
  unfold LStore
  infer_instance

/-- `logRequest` of the legacy variant in `src/unnamed/part_000`: a missing
file is treated as an empty log (`ENOENT` is swallowed and `logData = []`),
the entry is appended with `logNumber = logData.length + 1`, and the file is
written — so capturing to an unknown bin id creates the bin.  The capture
route then answers status 200. -/
def legacyLogRequest (s : LStore) (g : String) (rd : RequestData) : LStore × Nat :=
  match findBin s g with
  | none => ((g, [rd.toEntry 1]) :: s, 200)
  | some logData =>
    (setBin s g (logData ++ [rd.toEntry (logData.length + 1)]), 200)

/-! ## Live streams: SSE registry and subscriber connections (`src/app.js`)

`GET /logs-stream/:guid` registers the response object in `sseClients[guid]`
and starts a 15-second keep-alive interval; `pushUpdateToClients` writes one
`data:` block per new entry to every registered client; `req.on('close')`
unregisters the client and clears its interval; `DELETE /delete-url/:guid`
drops the whole `sseClients[guid]` list (without closing the connections).
A subscriber connection is embedded as a `Client`; what the server has
written to it is its `stream`. -/

/-- One message written to an SSE response: either a `data:` block carrying
a log entry, or a comment line (the keep-alive). -/
inductive SseMsg
  | data (e : LogEntry)
  | comment (s : String)
deriving DecidableEq, Repr

/-- One live-stream subscriber connection: the bin it subscribed to, whether
it is still in `sseClients[guid]`, whether the underlying connection has been
closed, and everything written to it so far (in order). -/
structure Client where
  guid : String
  registered : Bool
  closed : Bool
  stream : List SseMsg
deriving DecidableEq, Repr

/-- The server state relevant to live streaming: the bin store plus all
subscriber connections (addressed by their index). -/
structure World where
  store : DbStore
  clients : List Client
deriving DecidableEq

/-- Element lookup by index. -/
def listNth {α : Type} : List α → Nat → Option α
  | [], _ => none
  | x :: _, 0 => some x
  | _ :: xs, n + 1 => listNth xs n

/-- Apply `f` to the element at index `i`, leaving the rest unchanged. -/
def modifyNth {α : Type} (f : α → α) : Nat → List α → List α
  | _, [] => []
  | 0, x :: xs => f x :: xs
  | n + 1, x :: xs => x :: modifyNth f n xs

/-- `pushUpdateToClients` of `app.js`: write a `data:` block with the entry
to every client registered for this guid. -/
def pushUpdateToClients (g : String) (e : LogEntry) (cs : List Client) : List Client :=
  cs.map (fun c =>
    if c.guid = g ∧ c.registered = true then
      { c with stream := c.stream ++ [SseMsg.data e] }
    else c)

/-- `GET /logs-stream/:guid`: register a fresh subscriber connection for
guid `g`. -/
def World.subscribeStep (g : String) (w : World) : World :=
  { w with clients := w.clients ++
      [{ guid := g, registered := true, closed := false, stream := [] }] }

/-- A capture handled by `app.js`: `logRequest` against the store, and on
success the new entry is fanned out to the registered subscribers of the
bin. -/
def World.captureStep (g : String) (rd : RequestData) (w : World) : World × Nat :=
  match findBin w.store g with
  | none => (w, 404)
  | some db =>
    let e := rd.toEntry (db.seq + 1)
    ({ store := setBin w.store g { db with seq := db.seq + 1, rows := db.rows ++ [e] },
       clients := pushUpdateToClients g e w.clients }, 200)

/-- The body of a subscriber's keep-alive interval: write the comment line
to a connection that is still open. -/
def keepAliveWrite (c : Client) : Client :=
  if c.closed then c
  else { c with stream := c.stream ++ [SseMsg.comment ": keep-alive"] }

/-- One firing of a subscriber's 15-second keep-alive interval, on connection
`i`.  The interval is cleared only by the connection's own close event, so it
keeps firing for clients that were merely unregistered. -/
def World.tickStep (i : Nat) (w : World) : World :=
  { w with clients := modifyNth keepAliveWrite i w.clients }

/-- The client closes connection `i`: `req.on('close')` clears the interval
and filters the response out of `sseClients[guid]`.  This is the only
transition that closes a connection. -/
def World.disconnectStep (i : Nat) (w : World) : World :=
  { w with clients :=
      modifyNth (fun c => { c with closed := true, registered := false }) i w.clients }

/-- `DELETE /delete-url/:guid` of `app.js` at the world level: unlink the
bin's database (404 when absent) and `delete sseClients[guid]`, dropping
every subscriber of this guid from the registry.  Their connections are not
closed and their keep-alive intervals are not cleared. -/
def World.deleteUrlStep (g : String) (w : World) : World × Nat :=
  match findBin w.store g with
  | none => (w, 404)
  | some _ =>
    ({ store := removeBin w.store g,
       clients := w.clients.map
         (fun c => if c.guid = g then { c with registered := false } else c) },
     200)

/-- A server-side event while a subscriber is held open: either an inbound
capture to the observed bin or some client's keep-alive interval firing. -/
inductive SOp
  | capture (rd : RequestData)
  | tick (i : Nat)
deriving DecidableEq, Repr

/-- Run a sequence of captures to bin `g` and keep-alive firings. -/
def runOps (g : String) : World → List SOp → World
  | w, [] => w
  | w, SOp.capture rd :: rest => runOps g (World.captureStep g rd w).1 rest
  | w, SOp.tick i :: rest => runOps g (World.tickStep i w) rest

/-- The data events among the messages written to a connection — comment
lines (keep-alives) are transport-level and carry no entry. -/
def dataEvents : List SseMsg → List LogEntry :=
  List.filterMap (fun m => match m with
    | SseMsg.data e => some e
    | SseMsg.comment _ => none)

/-- The data events delivered so far to the subscriber at index `i`. -/
def dataEventsAt (w : World) (i : Nat) : List LogEntry :=
  match listNth w.clients i with
  | some c => dataEvents c.stream
  | none => []

/-- The capture requests among a sequence of server-side events, in order. -/
def capturesOf : List SOp → List RequestData
  | [] => []
  | SOp.capture rd :: rest => rd :: capturesOf rest
  | SOp.tick _ :: rest => capturesOf rest

/-- The entries a sequence of captures produces when the store's next log
numbers are `s+1, s+2, …` (each capture one greater than the last). -/
def expectedEntries (s : Nat) : List RequestData → List LogEntry
  | [] => []
  | rd :: rest => rd.toEntry (s + 1) :: expectedEntries (s + 1) rest

/-- Iterated captures to bin `g` in the flat-file backend, in call order. -/
def jsonCaptureMany (s : JStore) (g : String) : List RequestData → JStore
  | [] => s
  | rd :: rest => jsonCaptureMany (jsonLogRequest s g rd).1 g rest

/-! ## Helper lemmas about the embedding -/

theorem findBin_setBin_self {α : Type} (s : List (String × α)) (g : String) (v0 v : α)
    (h : findBin s g = some v0) : findBin (setBin s g v) g = some v := by
  induction s with
  | nil => simp [findBin] at h
  | cons p rest ih =>
    obtain ⟨k, x⟩ := p
    by_cases hk : k = g
    · simp [findBin, setBin, hk]
    · simp only [findBin, setBin, hk, if_false, if_neg hk] at h ⊢
      exact ih h

theorem setBin_self {α : Type} (s : List (String × α)) (g : String) (v : α)
    (h : findBin s g = some v) : setBin s g v = s := by
  induction s with
  | nil => rfl
  | cons p rest ih =>
    obtain ⟨k, x⟩ := p
    by_cases hk : k = g
    · simp only [findBin, if_pos hk] at h
      obtain rfl : x = v := Option.some.inj h
      simp [setBin, hk]
    · simp only [findBin, if_neg hk] at h
      simp [setBin, hk, ih h]

theorem findBin_removeBin_self {α : Type} (s : List (String × α)) (g : String) :
    findBin (removeBin s g) g = none := by
  induction s with
  | nil => rfl
  | cons p rest ih =>
    obtain ⟨k, x⟩ := p
    by_cases hk : k = g
    · simpa [removeBin, List.filter_cons, hk] using ih
    · simpa [removeBin, List.filter_cons, hk, findBin] using ih

theorem mem_removeBin {α : Type} (s : List (String × α)) (g : String) (p : String × α)
    (h : p ∈ removeBin s g) : p ∈ s ∧ ¬ p.1 = g := by
  have := List.mem_filter.mp h
  refine ⟨this.1, ?_⟩
  simpa using this.2

theorem listNth_map {α β : Type} (f : α → β) (l : List α) (i : Nat) :
    listNth (l.map f) i = (listNth l i).map f := by
  induction l generalizing i with
  | nil => simp [listNth]
  | cons x xs ih => cases i <;> simp [listNth, ih]

theorem listNth_modifyNth_self {α : Type} (f : α → α) (l : List α) (i : Nat) :
    listNth (modifyNth f i l) i = (listNth l i).map f := by
  induction l generalizing i with
  | nil => cases i <;> simp [listNth, modifyNth]
  | cons x xs ih => cases i <;> simp [listNth, modifyNth, ih]

theorem listNth_modifyNth_ne {α : Type} (f : α → α) (l : List α) (i j : Nat)
    (hij : ¬ j = i) : listNth (modifyNth f j l) i = listNth l i := by
  induction l generalizing i j with
  | nil => cases j <;> simp [listNth, modifyNth]
  | cons x xs ih =>
    cases j with
    | zero =>
      cases i with
      | zero => exact absurd rfl hij
      | succ i => simp [listNth, modifyNth]
    | succ j =>
      cases i with
      | zero => simp [listNth, modifyNth]
      | succ i =>
        simp only [listNth, modifyNth]
        exact ih i j (fun hh => hij (by simpa using hh))

theorem dataEvents_append (a b : List SseMsg) :
    dataEvents (a ++ b) = dataEvents a ++ dataEvents b := by
  simp [dataEvents, List.filterMap_append]

theorem dataEvents_snoc_data (s : List SseMsg) (e : LogEntry) :
    dataEvents (s ++ [SseMsg.data e]) = dataEvents s ++ [e] := by
  simp [dataEvents_append, dataEvents, List.filterMap]

theorem dataEvents_snoc_comment (s : List SseMsg) (x : String) :
    dataEvents (s ++ [SseMsg.comment x]) = dataEvents s := by
  simp [dataEvents_append, dataEvents, List.filterMap]

theorem keepAliveWrite_guid (c : Client) : (keepAliveWrite c).guid = c.guid := by
  unfold keepAliveWrite
  by_cases h : c.closed <;> simp [h]

theorem keepAliveWrite_registered (c : Client) :
    (keepAliveWrite c).registered = c.registered := by
  unfold keepAliveWrite
  by_cases h : c.closed <;> simp [h]

theorem keepAliveWrite_dataEvents (c : Client) :
    dataEvents (keepAliveWrite c).stream = dataEvents c.stream := by
  unfold keepAliveWrite
  by_cases h : c.closed <;> simp [h, dataEvents_snoc_comment]

theorem map_logNumber_expectedEntries (rs : List RequestData) :
    ∀ s : Nat, (expectedEntries s rs).map (fun e => e.logNumber) =
      List.range' (s + 1) rs.length := by
  induction rs with
  | nil => intro s; simp [expectedEntries]
  | cons rd rest ih =>
    intro s
    simp [expectedEntries, RequestData.toEntry, List.range'_succ, ih]

theorem expectedEntries_nodup (rs : List RequestData) (s : Nat) :
    ((expectedEntries s rs).map (fun e => e.logNumber)).Nodup := by
  rw [map_logNumber_expectedEntries]
  exact (List.pairwise_lt_range' ..).imp Nat.ne_of_lt

theorem jsonCaptureMany_spec (g : String) (rs : List RequestData) :
    ∀ (s : JStore) (bf : BinFile), findBin s g = some bf →
      findBin (jsonCaptureMany s g rs) g =
        some { bf with requests := bf.requests ++ expectedEntries bf.requests.length rs } := by
  induction rs with
  | nil =>
    intro s bf h
    simpa [jsonCaptureMany, expectedEntries] using h
  | cons rd rest ih =>
    intro s bf h
    have hstep : (jsonLogRequest s g rd).1 =
        setBin s g { bf with
          requests := bf.requests ++ [rd.toEntry (bf.requests.length + 1)] } := by
      simp [jsonLogRequest, h]
    have h1 : findBin (jsonLogRequest s g rd).1 g =
        some { bf with
          requests := bf.requests ++ [rd.toEntry (bf.requests.length + 1)] } := by
      rw [hstep]
      exact findBin_setBin_self _ _ _ _ h
    have h2 := ih _ _ h1
    simp only [jsonCaptureMany]
    rw [h2]
    simp [expectedEntries, List.append_assoc]

theorem dataEventsAt_some (w : World) (i : Nat) (c : Client)
    (hc : listNth w.clients i = some c) : dataEventsAt w i = dataEvents c.stream := by
  unfold dataEventsAt
  rw [hc]

theorem captureStep_present (g : String) (rd : RequestData) (w : World) (db : Db)
    (hdb : findBin w.store g = some db) :
    World.captureStep g rd w =
      ({ store := setBin w.store g
           { db with seq := db.seq + 1, rows := db.rows ++ [rd.toEntry (db.seq + 1)] },
         clients := pushUpdateToClients g (rd.toEntry (db.seq + 1)) w.clients }, 200) := by
  simp [World.captureStep, hdb]

theorem runOps_dataEvents (g : String) (i : Nat) (ops : List SOp) :
    ∀ (w : World) (db : Db) (c : Client),
      findBin w.store g = some db →
      listNth w.clients i = some c →
      c.guid = g → c.registered = true →
      dataEventsAt (runOps g w ops) i =
        dataEvents c.stream ++ expectedEntries db.seq (capturesOf ops) := by
  induction ops with
  | nil =>
    intro w db c _ hc _ _
    simp [runOps, capturesOf, expectedEntries, dataEventsAt_some w i c hc]
  | cons op rest ih =>
    intro w db c hdb hc hg hr
    cases op with
    | capture rd =>
      have hw' : (World.captureStep g rd w).1 =
          { store := setBin w.store g
              { db with seq := db.seq + 1, rows := db.rows ++ [rd.toEntry (db.seq + 1)] },
            clients := pushUpdateToClients g (rd.toEntry (db.seq + 1)) w.clients } := by
        rw [captureStep_present g rd w db hdb]
      have hdb' : findBin (World.captureStep g rd w).1.store g =
          some { db with seq := db.seq + 1, rows := db.rows ++ [rd.toEntry (db.seq + 1)] } := by
        rw [hw']
        exact findBin_setBin_self _ _ _ _ hdb
      have hc' : listNth (World.captureStep g rd w).1.clients i =
          some { c with stream := c.stream ++ [SseMsg.data (rd.toEntry (db.seq + 1))] } := by
        rw [hw']
        show listNth (pushUpdateToClients g (rd.toEntry (db.seq + 1)) w.clients) i = _
        unfold pushUpdateToClients
        rw [listNth_map, hc]
        simp [hg, hr]
      have hrec := ih (World.captureStep g rd w).1
        { db with seq := db.seq + 1, rows := db.rows ++ [rd.toEntry (db.seq + 1)] }
        { c with stream := c.stream ++ [SseMsg.data (rd.toEntry (db.seq + 1))] }
        hdb' hc' hg hr
      simp only [runOps]
      rw [hrec]
      simp [dataEvents_snoc_data, capturesOf, expectedEntries, List.append_assoc]
    | tick j =>
      by_cases hji : j = i
      · subst hji
        have hc' : listNth (World.tickStep j w).clients j = some (keepAliveWrite c) := by
          show listNth (modifyNth keepAliveWrite j w.clients) j = _
          rw [listNth_modifyNth_self, hc]
          rfl
        have hrec := ih (World.tickStep j w) db (keepAliveWrite c) hdb hc'
          (by rw [keepAliveWrite_guid]; exact hg)
          (by rw [keepAliveWrite_registered]; exact hr)
        simp only [runOps]
        rw [hrec, keepAliveWrite_dataEvents]
        simp [capturesOf]
      · have hc' : listNth (World.tickStep j w).clients i = some c := by
          show listNth (modifyNth keepAliveWrite j w.clients) i = _
          rw [listNth_modifyNth_ne _ _ _ _ hji, hc]
        have hrec := ih (World.tickStep j w) db c hdb hc' hg hr
        simp only [runOps]
        rw [hrec]
        simp [capturesOf]

theorem runOps_store (g : String) (ops : List SOp) :
    ∀ (w : World) (db : Db), findBin w.store g = some db →
      findBin (runOps g w ops).store g =
        some { db with seq := db.seq + (capturesOf ops).length,
                       rows := db.rows ++ expectedEntries db.seq (capturesOf ops) } := by
  induction ops with
  | nil =>
    intro w db hdb
    simpa [runOps, capturesOf, expectedEntries] using hdb
  | cons op rest ih =>
    intro w db hdb
    cases op with
    | capture rd =>
      have hw' : (World.captureStep g rd w).1 =
          { store := setBin w.store g
              { db with seq := db.seq + 1, rows := db.rows ++ [rd.toEntry (db.seq + 1)] },
            clients := pushUpdateToClients g (rd.toEntry (db.seq + 1)) w.clients } := by
        rw [captureStep_present g rd w db hdb]
      have hdb' : findBin (World.captureStep g rd w).1.store g =
          some { db with seq := db.seq + 1, rows := db.rows ++ [rd.toEntry (db.seq + 1)] } := by
        rw [hw']
        exact findBin_setBin_self _ _ _ _ hdb
      have hrec := ih _ _ hdb'
      simp only [runOps]
      rw [hrec]
      simp only [capturesOf, expectedEntries, List.length_cons, List.append_assoc,
        List.singleton_append, Option.some.injEq]
      have hseq : db.seq + 1 + (capturesOf rest).length =
          db.seq + ((capturesOf rest).length + 1) := by omega
      simp [hseq]
    | tick j =>
      have hrec := ih (World.tickStep j w) db hdb
      simp only [runOps]
      rw [hrec]
      simp [capturesOf]

theorem runOps_unregistered (g : String) (i : Nat) (ops : List SOp) :
    ∀ (w : World) (c : Client),
      listNth w.clients i = some c → c.registered = false →
      dataEventsAt (runOps g w ops) i = dataEvents c.stream := by
  induction ops with
  | nil =>
    intro w c hc _
    simp [runOps, dataEventsAt_some w i c hc]
  | cons op rest ih =>
    intro w c hc hr
    cases op with
    | capture rd =>
      cases hdb : findBin w.store g with
      | none =>
        have hstep : World.captureStep g rd w = (w, 404) := by
          simp [World.captureStep, hdb]
        simp only [runOps]
        rw [hstep]
        exact ih w c hc hr
      | some db =>
        have hw' : (World.captureStep g rd w).1 =
            { store := setBin w.store g
                { db with seq := db.seq + 1, rows := db.rows ++ [rd.toEntry (db.seq + 1)] },
              clients := pushUpdateToClients g (rd.toEntry (db.seq + 1)) w.clients } := by
          rw [captureStep_present g rd w db hdb]
        have hc' : listNth (World.captureStep g rd w).1.clients i = some c := by
          rw [hw']
          show listNth (pushUpdateToClients g (rd.toEntry (db.seq + 1)) w.clients) i = _
          unfold pushUpdateToClients
          rw [listNth_map, hc]
          simp [hr]
        simp only [runOps]
        exact ih _ c hc' hr
    | tick j =>
      by_cases hji : j = i
      · subst hji
        have hc' : listNth (World.tickStep j w).clients j = some (keepAliveWrite c) := by
          show listNth (modifyNth keepAliveWrite j w.clients) j = _
          rw [listNth_modifyNth_self, hc]
          rfl
        have hrec := ih (World.tickStep j w) (keepAliveWrite c) hc'
          (by rw [keepAliveWrite_registered]; exact hr)
        simp only [runOps]
        rw [hrec, keepAliveWrite_dataEvents]
      · have hc' : listNth (World.tickStep j w).clients i = some c := by
          show listNth (modifyNth keepAliveWrite j w.clients) i = _
          rw [listNth_modifyNth_ne _ _ _ _ hji, hc]
        simp only [runOps]
        exact ih _ c hc' hr

theorem filter_eq_self_of_no_match {α β : Type} [DecidableEq β] (f : α → β) (k : β)
    (l : List α) (h : ∀ a ∈ l, ¬ f a = k) : l.filter (fun a => ¬ f a = k) = l := by
  rw [List.filter_eq_self]
  intro a ha
  simpa using h a ha

theorem length_filter_ne_of_nodup {α β : Type} [DecidableEq β] (f : α → β) (k : β) :
    ∀ l : List α, (l.map f).Nodup → k ∈ l.map f →
      (l.filter (fun a => ¬ f a = k)).length + 1 = l.length := by
  intro l
  induction l with
  | nil =>
    intro _ hk
    simp at hk
  | cons x xs ih =>
    intro hnd hk
    simp only [List.map_cons, List.nodup_cons] at hnd
    obtain ⟨hx, hnd'⟩ := hnd
    by_cases hfx : f x = k
    · have hnomatch : ∀ a ∈ xs, ¬ f a = k := by
        intro a ha hak
        apply hx
        rw [← hfx] at hak
        rw [← hak]
        exact List.mem_map_of_mem f ha
      have hall := filter_eq_self_of_no_match f k xs hnomatch
      have hcond : (decide ¬ f x = k) = false := by simp [hfx]
      rw [List.filter_cons, hcond]
      simp only [Bool.false_eq_true, if_false]
      rw [hall]
      simp
    · have hk' : k ∈ xs.map f := by
        rcases List.mem_cons.mp hk with hkx | hkm
        · exact absurd hkx.symm hfx
        · exact hkm
      have hrec := ih hnd' hk'
      have hcond : (decide ¬ f x = k) = true := by simp [hfx]
      rw [List.filter_cons, hcond]
      simp only [if_true, List.length_cons]
      omega

/-! ## The capture route (`app.all` of both variants) -/

/-- An inbound HTTP request as the Express capture route
`app.all('/:guid/:subPath*?')` sees it: the first path segment is bound to
the `:guid` parameter, `rest` is the remainder of the URL after that segment
(any sub-path and query string); method, headers and body come with the
request. -/
structure Inbound where
  guid : String
  rest : String
  method : String
  headers : List (String × String)
  body : String
deriving DecidableEq, Repr

/-- `req.originalUrl`: the full URL as requested — the leading slash, the
bin-id segment itself, then the rest of the path and query string. -/
def Inbound.originalUrl (r : Inbound) : String := "/" ++ r.guid ++ r.rest

/-- The `requestData` object the capture route builds before logging:
`url` is `req.originalUrl`, and the timestamp is the capture time. -/
def mkRequestData (r : Inbound) (now : String) : RequestData :=
  { url := r.originalUrl, method := r.method, headers := r.headers,
    body := r.body, timestamp := now }

/-- The capture route of `app-json.js`: build the request data and log it
under the `:guid` parameter. -/
def jsonCaptureRoute (s : JStore) (r : Inbound) (now : String) :
    JStore × Nat × Option LogEntry :=
  jsonLogRequest s r.guid (mkRequestData r now)

/-- The capture route of `app.js`: build the request data and log it under
the `:guid` parameter. -/
def sqliteCaptureRoute (s : DbStore) (r : Inbound) (now : String) :
    DbStore × Nat × Option LogEntry :=
  sqliteLogRequest s r.guid (mkRequestData r now)

theorem originalUrl_ne_rest (r : Inbound) : ¬ r.originalUrl = r.rest := by
  intro h
  have hlen := congrArg String.length h
  rw [Inbound.originalUrl] at hlen
  simp [String.length_append] at hlen
  exact absurd hlen.1 (by decide)

/-! ## Concrete demonstration inputs -/

/-- A concrete capture request for concrete evaluations. -/
def rdA : RequestData :=
  { url := "/bin1/a", method := "GET", headers := [("host", "x")], body := "",
    timestamp := "2024-01-01T00:00:01Z" }

/-- A second concrete capture request. -/
def rdB : RequestData :=
  { url := "/bin1/b?x=1", method := "POST", headers := [], body := "hello",
    timestamp := "2024-01-01T00:00:02Z" }

/-- A third concrete capture request. -/
def rdC : RequestData :=
  { url := "/bin1/c", method := "PUT", headers := [], body := "",
    timestamp := "2024-01-01T00:00:03Z" }

/-- Flat-file store after `POST /create-url` for bin `bin1`. -/
def c1Store0 : JStore := (jsonCreateUrl [] "bin1" none).1

/-- … after one capture (entry 1). -/
def c1Store1 : JStore := (jsonLogRequest c1Store0 "bin1" rdA).1

/-- … after a second capture (entry 2). -/
def c1Store2 : JStore := (jsonLogRequest c1Store1 "bin1" rdB).1

/-- … after `DELETE /logs/bin1/1` (entry 1 removed; entry 2 remains). -/
def c1Store3 : JStore := (jsonDeleteOne c1Store2 "bin1" (some 1)).1

/-- C1, counterexample.  In the flat-file backend reach the state
create → capture → capture → delete entry 1: the bin holds exactly the entry
with logNumber 2.  The next capture is assigned `requests.length + 1 = 2` —
not one greater than the current maximum (which would be 3) — and the
resulting bin holds two entries both numbered 2, so log numbers are neither
`max+1`-assigned nor unique within the bin. -/
theorem c1_counterexample :
    (findBin c1Store3 "bin1").map (fun bf => bf.requests.map (fun e => e.logNumber)) =
      some [2] ∧
    (jsonLogRequest c1Store3 "bin1" rdC).2.2.map (fun e => e.logNumber) = some 2 ∧
    (findBin (jsonLogRequest c1Store3 "bin1" rdC).1 "bin1").map
      (fun bf => bf.requests.map (fun e => e.logNumber)) = some [2, 2] ∧
    ¬ ([2, 2] : List Nat).Nodup := by
  decide

/-- C1 (amended): appending a capture to an existing bin assigns
`logNumber = requests.length + 1` in the flat-file backend and
`logNumber = seq + 1` (one greater than the highest number ever assigned in
that bin) in the SQLite backend, never a caller-supplied number; and for a
freshly created bin receiving only captures (no deletions) the assigned log
numbers are exactly `1..N`, unique and strictly increasing in insertion
order. -/
theorem c1_log_number_assignment
    (js : JStore) (ss : DbStore) (g : String) (bf : BinFile) (db : Db)
    (rd : RequestData) (s0 : JStore) (nm : Option String) (rs : List RequestData)
    (hj : findBin js g = some bf) (hs : findBin ss g = some db) :
    (jsonLogRequest js g rd).2.2 = some (rd.toEntry (bf.requests.length + 1)) ∧
    findBin (jsonLogRequest js g rd).1 g =
      some { bf with requests := bf.requests ++ [rd.toEntry (bf.requests.length + 1)] } ∧
    (sqliteLogRequest ss g rd).2.2 = some (rd.toEntry (db.seq + 1)) ∧
    findBin (sqliteLogRequest ss g rd).1 g =
      some { db with seq := db.seq + 1, rows := db.rows ++ [rd.toEntry (db.seq + 1)] } ∧
    findBin (jsonCaptureMany (jsonCreateUrl s0 g nm).1 g rs) g =
      some { name := none, requests := expectedEntries 0 rs } ∧
    (expectedEntries 0 rs).map (fun e => e.logNumber) = List.range' 1 rs.length ∧
    List.Pairwise (· < ·) ((expectedEntries 0 rs).map (fun e => e.logNumber)) := by
  have hcreate : findBin (jsonCreateUrl s0 g nm).1 g =
      some { name := none, requests := [] } := by
    simp [jsonCreateUrl, findBin]
  refine ⟨?_, ?_, ?_, ?_, ?_, ?_, ?_⟩
  · simp [jsonLogRequest, hj]
  · simp only [jsonLogRequest, hj]
    exact findBin_setBin_self _ _ _ _ hj
  · simp [sqliteLogRequest, hs]
  · simp only [sqliteLogRequest, hs]
    exact findBin_setBin_self _ _ _ _ hs
  · have := jsonCaptureMany_spec g rs _ _ hcreate
    simpa using this
  · rw [map_logNumber_expectedEntries]
  · rw [map_logNumber_expectedEntries]
    exact List.pairwise_lt_range' ..

/-- C1, witness: in a flat-file store holding the single empty bin `bin1`,
a capture is assigned logNumber 1. -/
theorem c1_witness :
    (jsonLogRequest [("bin1", { name := none, requests := [] })] "bin1" rdA).2.2 =
      some (rdA.toEntry 1) :=
  (c1_log_number_assignment
    [("bin1", { name := none, requests := [] })]
    [("bin1", { name := "n", seq := 0, rows := [] })]
    "bin1" { name := none, requests := [] } { name := "n", seq := 0, rows := [] }
    rdA [] none [rdA, rdB] rfl rfl).1

/-- C2, counterexample.  The legacy variant in `src/unnamed/part_000`
swallows the missing-file error: capturing to the unknown bin `bin1` on an
empty data directory answers 200 (not 404) and creates the bin with the
entry stored as logNumber 1. -/
theorem c2_counterexample :
    (legacyLogRequest [] "bin1" rdA).2 = 200 ∧
    ¬ (legacyLogRequest [] "bin1" rdA).2 = 404 ∧
    findBin (legacyLogRequest [] "bin1" rdA).1 "bin1" = some [rdA.toEntry 1] := by
  decide

/-- C2 (amended): in `app.js` and `app-json.js` a capture to an unknown bin
id answers 404 and leaves storage unchanged (no entry persisted, no bin
created, nothing published); the legacy variant in `src/unnamed/part_000`
instead creates the bin, persists the entry with logNumber 1, and answers
200. -/
theorem c2_unknown_bin_capture
    (js : JStore) (ss : DbStore) (ls : LStore) (g : String) (rd : RequestData)
    (hj : findBin js g = none) (hs : findBin ss g = none) (hl : findBin ls g = none) :
    jsonLogRequest js g rd = (js, 404, none) ∧
    sqliteLogRequest ss g rd = (ss, 404, none) ∧
    legacyLogRequest ls g rd = ((g, [rd.toEntry 1]) :: ls, 200) := by
  refine ⟨?_, ?_, ?_⟩
  · simp [jsonLogRequest, hj]
  · simp [sqliteLogRequest, hs]
  · simp [legacyLogRequest, hl]

/-- C2, witness: a capture to `bin1` on an empty flat-file data directory
answers 404 and changes nothing. -/
theorem c2_witness : jsonLogRequest [] "bin1" rdA = ([], 404, none) :=
  (c2_unknown_bin_capture [] [] [] "bin1" rdA rfl rfl rfl).1

/-- C3, counterexample.  Reach the flat-file state create → capture →
capture: `GET /logs/bin1` answers 200 and returns the requests in stored
(insertion) order, log numbers `[1, 2]` — ascending, not descending. -/
theorem c3_counterexample :
    (jsonFetchLog c1Store2 "bin1").1 = 200 ∧
    (jsonFetchLog c1Store2 "bin1").2.map
      (fun bf => bf.requests.map (fun e => e.logNumber)) = some [1, 2] ∧
    ¬ List.Pairwise (fun a b => b ≤ a) ([1, 2] : List Nat) := by
  decide

/-- C3 (amended): for an existing bin the SQLite variant returns the bin's
entries ordered descending by logNumber (a permutation of the stored rows),
and 404 when the bin is absent; the flat-file variant returns the stored
document unchanged — its requests in insertion order, not descending — and
404 when absent. -/
theorem c3_fetch_log_order
    (ss ss' : DbStore) (js js' : JStore) (g1 g2 g3 g4 : String) (db : Db) (bf : BinFile)
    (hs : findBin ss g1 = some db) (hs' : findBin ss' g2 = none)
    (hj : findBin js g3 = some bf) (hj' : findBin js' g4 = none) :
    sqliteFetchLog ss g1 = (200, some (db.name, sortByLogNumberDesc db.rows)) ∧
    List.Sorted descByLogNumber (sortByLogNumberDesc db.rows) ∧
    List.Perm (sortByLogNumberDesc db.rows) db.rows ∧
    sqliteFetchLog ss' g2 = (404, none) ∧
    jsonFetchLog js g3 = (200, some bf) ∧
    jsonFetchLog js' g4 = (404, none) := by
  refine ⟨?_, ?_, ?_, ?_, ?_, ?_⟩
  · simp [sqliteFetchLog, hs]
  · exact List.sorted_insertionSort descByLogNumber db.rows
  · exact List.perm_insertionSort descByLogNumber db.rows
  · simp [sqliteFetchLog, hs']
  · simp [jsonFetchLog, hj]
  · simp [jsonFetchLog, hj']

/-- A concrete SQLite bin with two rows for concrete evaluations. -/
def dbTwo : Db :=
  { name := "demo", seq := 2, rows := [rdA.toEntry 1, rdB.toEntry 2] }

/-- C3, witness: fetching the log of a concrete SQLite bin with rows
numbered 1 and 2 answers 200 with the rows sorted descending. -/
theorem c3_witness :
    sqliteFetchLog [("bin1", dbTwo)] "bin1" =
      (200, some (dbTwo.name, sortByLogNumberDesc dbTwo.rows)) :=
  (c3_fetch_log_order [("bin1", dbTwo)] [] [("b", { name := none, requests := [] })] []
    "bin1" "x" "b" "y" dbTwo { name := none, requests := [] } rfl rfl rfl rfl).1

theorem nodup_map_some (l : List LogEntry)
    (h : (l.map (fun e => e.logNumber)).Nodup) :
    (l.map (fun e => (some e.logNumber : Option Nat))).Nodup := by
  induction l with
  | nil => simp
  | cons x xs ih =>
    simp only [List.map_cons, List.nodup_cons] at h ⊢
    refine ⟨?_, ih h.2⟩
    intro hmem
    apply h.1
    simp only [List.mem_map] at hmem ⊢
    obtain ⟨e, he, heq⟩ := hmem
    exact ⟨e, he, Option.some.inj heq⟩

theorem mem_map_some (l : List LogEntry) (k : Nat)
    (h : k ∈ l.map (fun e => e.logNumber)) :
    (some k : Option Nat) ∈ l.map (fun e => (some e.logNumber : Option Nat)) := by
  simp only [List.mem_map] at h ⊢
  obtain ⟨e, he, heq⟩ := h
  exact ⟨e, he, by rw [heq]⟩

/-- C5: deleting entry `k` from an existing bin whose log numbers are
pairwise distinct and contain `k` answers 200, rewrites the bin to the
filter that drops exactly the `logNumber = k` entry (the count drops by
one), and keeps every other entry verbatim — same logNumber, timestamp,
method, url, headers and body — with no resequencing, in both backends. -/
theorem c5_delete_entry_exact
    (js : JStore) (ss : DbStore) (g1 g2 : String) (bf : BinFile) (db : Db) (k : Nat)
    (hj : findBin js g1 = some bf)
    (hs : findBin ss g2 = some db)
    (hnj : (bf.requests.map (fun e => e.logNumber)).Nodup)
    (hns : (db.rows.map (fun e => e.logNumber)).Nodup)
    (hkj : k ∈ bf.requests.map (fun e => e.logNumber))
    (hks : k ∈ db.rows.map (fun e => e.logNumber)) :
    (jsonDeleteOne js g1 (some k)).2 = 200 ∧
    findBin (jsonDeleteOne js g1 (some k)).1 g1 =
      some { bf with
        requests := bf.requests.filter (fun e => ¬ some e.logNumber = some k) } ∧
    (bf.requests.filter (fun e => ¬ some e.logNumber = some k)).length + 1 =
      bf.requests.length ∧
    (∀ e ∈ bf.requests, ¬ e.logNumber = k →
      e ∈ bf.requests.filter (fun e => ¬ some e.logNumber = some k)) ∧
    (∀ e ∈ bf.requests.filter (fun e => ¬ some e.logNumber = some k),
      e ∈ bf.requests ∧ ¬ e.logNumber = k) ∧
    (sqliteDeleteOne ss g2 (some k)).2 = 200 ∧
    findBin (sqliteDeleteOne ss g2 (some k)).1 g2 =
      some { db with rows := db.rows.filter (fun e => ¬ some e.logNumber = some k) } ∧
    (db.rows.filter (fun e => ¬ some e.logNumber = some k)).length + 1 =
      db.rows.length ∧
    (∀ e ∈ db.rows, ¬ e.logNumber = k →
      e ∈ db.rows.filter (fun e => ¬ some e.logNumber = some k)) ∧
    (∀ e ∈ db.rows.filter (fun e => ¬ some e.logNumber = some k),
      e ∈ db.rows ∧ ¬ e.logNumber = k) := by
  refine ⟨?_, ?_, ?_, ?_, ?_, ?_, ?_, ?_, ?_, ?_⟩
  · simp [jsonDeleteOne, hj]
  · simp only [jsonDeleteOne, hj]
    exact findBin_setBin_self _ _ _ _ hj
  · exact length_filter_ne_of_nodup (fun e => (some e.logNumber : Option Nat)) (some k)
      bf.requests (nodup_map_some _ hnj) (mem_map_some _ _ hkj)
  · intro e he hek
    refine List.mem_filter.mpr ⟨he, ?_⟩
    simpa using hek
  · intro e he
    have := List.mem_filter.mp he
    refine ⟨this.1, ?_⟩
    simpa using this.2
  · simp [sqliteDeleteOne, hs]
  · simp only [sqliteDeleteOne, hs]
    exact findBin_setBin_self _ _ _ _ hs
  · exact length_filter_ne_of_nodup (fun e => (some e.logNumber : Option Nat)) (some k)
      db.rows (nodup_map_some _ hns) (mem_map_some _ _ hks)
  · intro e he hek
    refine List.mem_filter.mpr ⟨he, ?_⟩
    simpa using hek
  · intro e he
    have := List.mem_filter.mp he
    refine ⟨this.1, ?_⟩
    simpa using this.2

/-- A concrete flat-file bin with two entries for concrete evaluations. -/
def bfTwo : BinFile := { name := some "demo", requests := [rdA.toEntry 1, rdB.toEntry 2] }

/-- C5, witness: deleting entry 1 from a concrete two-entry flat-file bin
answers 200. -/
theorem c5_witness : (jsonDeleteOne [("bin1", bfTwo)] "bin1" (some 1)).2 = 200 :=
  (c5_delete_entry_exact [("bin1", bfTwo)] [("bin1", dbTwo)] "bin1" "bin1" bfTwo dbTwo 1
    rfl rfl (by decide) (by decide) (by decide) (by decide)).1

/-- C7, counterexample.  Renaming a bin that does not exist in the
flat-file variant answers 500, not the claimed 404: the missing-file read
error lands in the generic catch block. -/
theorem c7_counterexample :
    (jsonRenameUrl [] "bin1" "fresh name").2 = 500 ∧
    ¬ (jsonRenameUrl [] "bin1" "fresh name").2 = 404 := by
  decide

/-- C7 (amended): renaming answers 200 and updates only the name when the
bin exists, in both variants; when the bin is absent the SQLite variant
answers 404 but the flat-file variant answers 500. -/
theorem c7_rename_status
    (ss ss' : DbStore) (js js' : JStore) (g1 g2 g3 g4 : String) (db : Db)
    (bf : BinFile) (nm : String)
    (hs : findBin ss g1 = some db) (hs' : findBin ss' g2 = none)
    (hj : findBin js g3 = some bf) (hj' : findBin js' g4 = none) :
    sqliteRenameUrl ss g1 nm = (setBin ss g1 { db with name := nm }, 200) ∧
    findBin (sqliteRenameUrl ss g1 nm).1 g1 = some { db with name := nm } ∧
    sqliteRenameUrl ss' g2 nm = (ss', 404) ∧
    jsonRenameUrl js g3 nm = (setBin js g3 { bf with name := some nm }, 200) ∧
    findBin (jsonRenameUrl js g3 nm).1 g3 = some { bf with name := some nm } ∧
    jsonRenameUrl js' g4 nm = (js', 500) := by
  refine ⟨?_, ?_, ?_, ?_, ?_, ?_⟩
  · simp [sqliteRenameUrl, hs]
  · simp only [sqliteRenameUrl, hs]
    exact findBin_setBin_self _ _ _ _ hs
  · simp [sqliteRenameUrl, hs']
  · simp [jsonRenameUrl, hj]
  · simp only [jsonRenameUrl, hj]
    exact findBin_setBin_self _ _ _ _ hj
  · simp [jsonRenameUrl, hj']

/-- C7, witness: renaming an existing concrete SQLite bin answers 200 with
the name updated. -/
theorem c7_witness :
    sqliteRenameUrl [("bin1", dbTwo)] "bin1" "renamed" =
      (setBin [("bin1", dbTwo)] "bin1" { dbTwo with name := "renamed" }, 200) :=
  (c7_rename_status [("bin1", dbTwo)] [] [("bin1", bfTwo)] [] "bin1" "x" "bin1" "y"
    dbTwo bfTwo "renamed" rfl rfl rfl rfl).1

/-- C8, counterexample.  The flat-file create route ignores the supplied
name: creating with name "Bob" stores and echoes the `false` sentinel, not
"Bob". -/
theorem c8_counterexample :
    (jsonCreateUrl [] "bin1" (some "Bob")).2 = none ∧
    findBin (jsonCreateUrl [] "bin1" (some "Bob")).1 "bin1" =
      some { name := none, requests := [] } ∧
    ¬ (jsonCreateUrl [] "bin1" (some "Bob")).2 = some "Bob" := by
  decide

/-- C8 (amended): immediately fetching the log of a newly created bin
answers 200 with an empty entry list and the bin's initial name; in the
SQLite variant the initial name is the supplied name (or "Untitled" when
none was supplied), while the flat-file variant always initialises the name
to the `false` sentinel, ignoring any supplied name. -/
theorem c8_create_fetch_round_trip
    (ss : DbStore) (js : JStore) (g : String) (nm : Option String) :
    sqliteCreateUrl ss g nm =
      ((g, { name := nm.getD "Untitled", seq := 0, rows := [] }) :: ss,
       nm.getD "Untitled") ∧
    sqliteFetchLog (sqliteCreateUrl ss g nm).1 g = (200, some (nm.getD "Untitled", [])) ∧
    jsonCreateUrl js g nm = ((g, { name := none, requests := [] }) :: js, none) ∧
    jsonFetchLog (jsonCreateUrl js g nm).1 g =
      (200, some { name := none, requests := [] }) := by
  refine ⟨rfl, ?_, rfl, ?_⟩
  · simp [sqliteCreateUrl, sqliteFetchLog, findBin, sortByLogNumberDesc,
      List.insertionSort]
  · simp [jsonCreateUrl, jsonFetchLog, findBin]

/-- C9: deleting by a log number that matches no entry of an existing bin —
including the `NaN` produced by a non-numeric path segment, embedded as
`none` — answers 200 and leaves the store (and so the bin's entry log)
completely unchanged, in both backends. -/
theorem c9_delete_no_match
    (js : JStore) (ss : DbStore) (g1 g2 : String) (bf : BinFile) (db : Db)
    (k : Option Nat)
    (hj : findBin js g1 = some bf)
    (hs : findBin ss g2 = some db)
    (hnoj : ∀ e ∈ bf.requests, ¬ some e.logNumber = k)
    (hnos : ∀ e ∈ db.rows, ¬ some e.logNumber = k) :
    jsonDeleteOne js g1 k = (js, 200) ∧ sqliteDeleteOne ss g2 k = (ss, 200) := by
  constructor
  · have hfil := filter_eq_self_of_no_match (fun e => (some e.logNumber : Option Nat)) k
      bf.requests hnoj
    have hbf : { bf with
        requests := bf.requests.filter (fun e => ¬ some e.logNumber = k) } = bf := by
      rw [hfil]
    simp only [jsonDeleteOne, hj, hbf]
    rw [setBin_self js g1 bf hj]
  · have hfil := filter_eq_self_of_no_match (fun e => (some e.logNumber : Option Nat)) k
      db.rows hnos
    have hdb : { db with
        rows := db.rows.filter (fun e => ¬ some e.logNumber = k) } = db := by
      rw [hfil]
    simp only [sqliteDeleteOne, hs, hdb]
    rw [setBin_self ss g2 db hs]

/-- C9, witness: deleting with a non-numeric log-number segment (`parseInt`
gives `NaN`, matching nothing) from a concrete two-entry flat-file bin
answers 200 and leaves the store unchanged. -/
theorem c9_witness : jsonDeleteOne [("bin1", bfTwo)] "bin1" none =
    ([("bin1", bfTwo)], 200) :=
  (c9_delete_no_match [("bin1", bfTwo)] [("bin1", dbTwo)] "bin1" "bin1" bfTwo dbTwo none
    rfl rfl (by decide) (by decide)).1

/-- C10: a capture routed as `/:guid/:subPath*?` stores `req.originalUrl` as
the entry's url — the full original URL `"/" ++ guid ++ rest` including the
leading bin-id segment (plus sub-path and query string) — which is never
equal to merely the path beyond the bin segment, in both backends. -/
theorem c10_url_includes_bin_segment
    (js : JStore) (ss : DbStore) (r : Inbound) (now : String) (bf : BinFile) (db : Db)
    (hj : findBin js r.guid = some bf) (hs : findBin ss r.guid = some db) :
    (jsonCaptureRoute js r now).2.2.map (fun e => e.url) =
      some ("/" ++ r.guid ++ r.rest) ∧
    (sqliteCaptureRoute ss r now).2.2.map (fun e => e.url) =
      some ("/" ++ r.guid ++ r.rest) ∧
    findBin (jsonCaptureRoute js r now).1 r.guid =
      some { bf with requests := bf.requests ++
        [(mkRequestData r now).toEntry (bf.requests.length + 1)] } ∧
    ((mkRequestData r now).toEntry (bf.requests.length + 1)).url = r.originalUrl ∧
    ¬ ((mkRequestData r now).toEntry (bf.requests.length + 1)).url = r.rest := by
  refine ⟨?_, ?_, ?_, ?_, ?_⟩
  · simp [jsonCaptureRoute, jsonLogRequest, hj, mkRequestData, RequestData.toEntry,
      Inbound.originalUrl]
  · simp [sqliteCaptureRoute, sqliteLogRequest, hs, mkRequestData, RequestData.toEntry,
      Inbound.originalUrl]
  · simp only [jsonCaptureRoute, jsonLogRequest, hj]
    exact findBin_setBin_self _ _ _ _ hj
  · rfl
  · show ¬ r.originalUrl = r.rest
    exact originalUrl_ne_rest r

/-- A concrete inbound capture request to bin `bin1` with a sub-path and
query string. -/
def reqDemo : Inbound :=
  { guid := "bin1", rest := "/hello?x=1", method := "GET",
    headers := [("x", "1")], body := "" }

/-- C10, witness: the concrete capture `/bin1/hello?x=1` stores url
`/bin1/hello?x=1`, bin segment included. -/
theorem c10_witness :
    (jsonCaptureRoute [("bin1", bfTwo)] reqDemo "2024-01-01T00:00:09Z").2.2.map
      (fun e => e.url) = some ("/" ++ reqDemo.guid ++ reqDemo.rest) :=
  (c10_url_includes_bin_segment [("bin1", bfTwo)] [("bin1", dbTwo)] reqDemo
    "2024-01-01T00:00:09Z" bfTwo dbTwo rfl rfl).1

theorem runOps_closedAt (g : String) (i : Nat) (ops : List SOp) :
    ∀ w : World,
      (listNth (runOps g w ops).clients i).map (fun c => c.closed) =
        (listNth w.clients i).map (fun c => c.closed) := by
  induction ops with
  | nil => intro w; simp [runOps]
  | cons op rest ih =>
    intro w
    cases op with
    | capture rd =>
      cases hdb : findBin w.store g with
      | none =>
        have hstep : World.captureStep g rd w = (w, 404) := by
          simp [World.captureStep, hdb]
        simp only [runOps]
        rw [hstep]
        exact ih w
      | some db =>
        have hw' : (World.captureStep g rd w).1 =
            { store := setBin w.store g
                { db with seq := db.seq + 1, rows := db.rows ++ [rd.toEntry (db.seq + 1)] },
              clients := pushUpdateToClients g (rd.toEntry (db.seq + 1)) w.clients } := by
          rw [captureStep_present g rd w db hdb]
        simp only [runOps]
        rw [ih ((World.captureStep g rd w).1), hw']
        show (listNth (pushUpdateToClients g (rd.toEntry (db.seq + 1)) w.clients) i).map
          (fun c => c.closed) = _
        unfold pushUpdateToClients
        rw [listNth_map]
        cases hc : listNth w.clients i with
        | none => simp
        | some c =>
          by_cases hcond : c.guid = g ∧ c.registered = true
          · simp [hcond]
          · simp [hcond]
    | tick j =>
      simp only [runOps]
      rw [ih (World.tickStep j w)]
      show (listNth (modifyNth keepAliveWrite j w.clients) i).map (fun c => c.closed) = _
      by_cases hji : j = i
      · subst hji
        rw [listNth_modifyNth_self]
        cases hc : listNth w.clients j with
        | none => simp
        | some c =>
          unfold keepAliveWrite
          by_cases hcl : c.closed <;> simp [hcl]
      · rw [listNth_modifyNth_ne _ _ _ _ hji]

/-- C4: a subscriber registered for bin `g` before a run of server-side
events (captures to `g` interleaved with keep-alive firings) has received,
afterwards, exactly its previous data events followed by one data event per
capture in capture order, each carrying the entry with the store-assigned
log number (`seq+1, seq+2, …`); keep-alive firings are comment writes and
never appear among the data events.  The bin's stored rows confirm those
are exactly the assigned log numbers. -/
theorem c4_subscriber_stream
    (g : String) (i : Nat) (ops : List SOp) (w : World) (db : Db) (c : Client)
    (hdb : findBin w.store g = some db)
    (hc : listNth w.clients i = some c)
    (hg : c.guid = g) (hr : c.registered = true) :
    dataEventsAt (runOps g w ops) i =
      dataEventsAt w i ++ expectedEntries db.seq (capturesOf ops) ∧
    findBin (runOps g w ops).store g =
      some { db with seq := db.seq + (capturesOf ops).length,
                     rows := db.rows ++ expectedEntries db.seq (capturesOf ops) } := by
  constructor
  · rw [dataEventsAt_some w i c hc]
    exact runOps_dataEvents g i ops w db c hdb hc hg hr
  · exact runOps_store g ops w db hdb

/-- An empty concrete SQLite bin. -/
def dbEmpty : Db := { name := "demo", seq := 0, rows := [] }

/-- A concrete subscriber connection registered for bin `bin1`. -/
def cDemo : Client := { guid := "bin1", registered := true, closed := false, stream := [] }

/-- A concrete world: one empty bin `bin1` and one registered subscriber. -/
def wDemo : World := { store := [("bin1", dbEmpty)], clients := [cDemo] }

/-- A concrete run: capture, keep-alive firing, capture. -/
def opsDemo : List SOp := [SOp.capture rdA, SOp.tick 0, SOp.capture rdB]

/-- C4, witness: on the concrete world, after capture/keep-alive/capture the
subscriber's data events are exactly the two captured entries in order. -/
theorem c4_witness :
    dataEventsAt (runOps "bin1" wDemo opsDemo) 0 =
      dataEventsAt wDemo 0 ++ expectedEntries 0 (capturesOf opsDemo) :=
  (c4_subscriber_stream "bin1" 0 opsDemo wDemo dbEmpty cDemo rfl rfl rfl rfl).1

/-- C6, counterexample.  On the concrete world, deleting bin `bin1` answers
200 but leaves its subscriber's connection open: the subscriber is only
unregistered (`closed` is still `false`, so it was not force-closed), and
its keep-alive interval still fires and writes to the connection
afterwards. -/
theorem c6_counterexample :
    (World.deleteUrlStep "bin1" wDemo).2 = 200 ∧
    listNth (World.deleteUrlStep "bin1" wDemo).1.clients 0 =
      some { guid := "bin1", registered := false, closed := false, stream := [] } ∧
    listNth (World.tickStep 0 (World.deleteUrlStep "bin1" wDemo).1).clients 0 =
      some { guid := "bin1", registered := false, closed := false,
             stream := [SseMsg.comment ": keep-alive"] } := by
  decide

/-- C6 (amended): deleting an existing bin answers 200, removes it from the
store and hence from the bin listing, and unregisters every subscriber for
that id, so a subscriber receives no further data events under any
subsequent run of server-side events; but the server does not close the
connections: the deletion and any subsequent server-side run leave each
subscriber's closed flag unchanged — a connection closes only when the
client itself disconnects. -/
theorem c6_delete_bin_unsubscribes
    (w : World) (g : String) (db : Db) (i : Nat) (c : Client)
    (hdb : findBin w.store g = some db)
    (hc : listNth w.clients i = some c) (hg : c.guid = g) :
    (World.deleteUrlStep g w).2 = 200 ∧
    findBin (World.deleteUrlStep g w).1.store g = none ∧
    (∀ b ∈ listBins (World.deleteUrlStep g w).1.store, ¬ b.guid = g) ∧
    listNth (World.deleteUrlStep g w).1.clients i =
      some { c with registered := false } ∧
    (∀ ops : List SOp,
      dataEventsAt (runOps g (World.deleteUrlStep g w).1 ops) i = dataEvents c.stream) ∧
    (∀ ops : List SOp,
      (listNth (runOps g (World.deleteUrlStep g w).1 ops).clients i).map
        (fun x => x.closed) = some c.closed) := by
  have hstep : World.deleteUrlStep g w =
      ({ store := removeBin w.store g,
         clients := w.clients.map
           (fun x => if x.guid = g then { x with registered := false } else x) },
       200) := by
    simp [World.deleteUrlStep, hdb]
  have hclient : listNth (World.deleteUrlStep g w).1.clients i =
      some { c with registered := false } := by
    rw [hstep]
    show listNth (w.clients.map _) i = _
    rw [listNth_map, hc]
    simp [hg]
  refine ⟨by rw [hstep], ?_, ?_, hclient, ?_, ?_⟩
  · rw [hstep]
    exact findBin_removeBin_self w.store g
  · rw [hstep]
    intro b hb
    simp only [listBins, List.mem_map] at hb
    obtain ⟨p, hp, hbp⟩ := hb
    have hmem := mem_removeBin w.store g p hp
    rw [← hbp]
    exact hmem.2
  · intro ops
    exact runOps_unregistered g i ops _ { c with registered := false } hclient rfl
  · intro ops
    rw [runOps_closedAt g i ops, hclient]
    rfl

/-- C6, witness: deleting bin `bin1` on the concrete world unregisters its
subscriber. -/
theorem c6_witness :
    listNth (World.deleteUrlStep "bin1" wDemo).1.clients 0 =
      some { cDemo with registered := false } :=
  (c6_delete_bin_unsubscribes wDemo "bin1" dbEmpty 0 cDemo rfl rfl rfl).2.2.2.1
